import Mathlib

/-!
Verification of the DynamoDB Casbin policy-storage adapter (`src/adapter.rs`).

The development shallowly embeds the adapter's record codec, batch planner,
scan/filter query and façade operations as executable Lean functions, and
proves (or refutes) the specified properties about them.

Modelling conventions:
* the DynamoDB store is external to the repository; its documented interface
  (scan, put, delete-with-return, batch-write) is modelled as pure functions
  over a table represented as a `List Item`;
* `md5::compute` and the lowercase-hex `format` of its digest come from
  external crates, so the digest function is kept abstract: definitions and
  theorems are parametrised by an arbitrary `md5c : String → List Nat`
  (16-byte digest), and `hexLower` renders a digest byte list the way the
  crate's `LowerHex` instance does;
* Rust `Vec<String>` becomes `List String`, `HashMap<String, AttributeValue>`
  items become a fixed-shape structure, since the adapter only ever reads and
  writes the keys `id`, `pType`, `v0`..`v5`;
* fallible paths return `Except`/`Option`; a Rust panic is modelled as a
  distinguished outcome constructor.
-/

namespace DynamoDBAdapter

/-- Model of `aws_sdk_dynamodb::model::AttributeValue`, restricted to the two
shapes relevant here: string attributes (`S`, the only kind this adapter
writes) and a non-string stand-in (`N`) so that `as_s` is not trivially
total. -/
inductive AttributeValue where
  | S (s : String)
  | N (n : String)
deriving DecidableEq

/-- Model of `AttributeValue::as_s(..).ok()`: `some` exactly on string
attributes. -/
def asS : AttributeValue → Option String
  | .S s => some s
  | .N _ => none

/-- Model of one stored record (`HashMap<String, AttributeValue>`): the
adapter reads and writes only the attributes `id`, `pType` and `v0`..`v5`,
so the map is embedded as a fixed-shape structure of optional attributes
(absent key = `none`). -/
structure Item where
  id : Option AttributeValue := none
  pType : Option AttributeValue := none
  v0 : Option AttributeValue := none
  v1 : Option AttributeValue := none
  v2 : Option AttributeValue := none
  v3 : Option AttributeValue := none
  v4 : Option AttributeValue := none
  v5 : Option AttributeValue := none
deriving DecidableEq

/-- Attribute lookup `item.get("v{i}")` for the positional attributes. -/
def vAttr (it : Item) : Nat → Option AttributeValue
  | 0 => it.v0
  | 1 => it.v1
  | 2 => it.v2
  | 3 => it.v3
  | 4 => it.v4
  | 5 => it.v5
  | _ => none

/-- Lowercase hexadecimal digit, as produced by Rust's `{:x}` formatting. -/
def hexDigitChar (n : Nat) : Char :=
  if n < 10 then Char.ofNat (48 + n) else Char.ofNat (87 + n)

/-- Two lowercase hex digits for one digest byte. -/
def hexByte (b : Nat) : String :=
  String.mk [hexDigitChar (b / 16 % 16), hexDigitChar (b % 16)]

/-- Lowercase hexadecimal rendering of a digest byte list; models
`format!("{:x}", digest)` on the md5 crate's 16-byte `Digest`. -/
def hexLower (bytes : List Nat) : String :=
  String.join (bytes.map hexByte)

/-- Embedding of `DynamoDBAdapter::get_item_id` (adapter.rs:30-42): starting
from `ptype`, for `i in 0..6` append `","` and the field whenever
`rule.get(i)` is `Some`, then hash the line and render it as lowercase hex.
The digest `md5c` is the abstract model of `md5::compute`. -/
def get_item_id (md5c : String → List Nat) (ptype : String) (rule : List String) : String :=
  let line := (List.range 6).foldl
    (fun line i =>
      match rule.get? i with
      | some v => line ++ "," ++ v
      | none => line)
    ptype
  hexLower (md5c line)

/-- Value stored at attribute `v{i}` by `policy_to_item` (adapter.rs:53-60):
present exactly when `rule.get(i)` exists and is non-empty. -/
def encSlot (rule : List String) (i : Nat) : Option AttributeValue :=
  match rule.get? i with
  | some v => if v.isEmpty then none else some (.S v)
  | none => none

/-- Embedding of `DynamoDBAdapter::policy_to_item` (adapter.rs:44-66). -/
def policy_to_item (md5c : String → List Nat) (ptype : String) (rule : List String) : Item :=
  { pType := some (.S ptype)
    v0 := encSlot rule 0
    v1 := encSlot rule 1
    v2 := encSlot rule 2
    v3 := encSlot rule 3
    v4 := encSlot rule 4
    v5 := encSlot rule 5
    id := some (.S (get_item_id md5c ptype rule)) }

/-- One step of `item_to_policy`'s field collection: push the attribute's
string value if the attribute is present and is a string. -/
def pushIf (rule : List String) (o : Option AttributeValue) : List String :=
  match o with
  | some att =>
    match asS att with
    | some v => rule ++ [v]
    | none => rule
  | none => rule

/-- Embedding of `DynamoDBAdapter::item_to_policy` (adapter.rs:68-118):
`ptype` defaults to `""` and is overwritten from the `pType` attribute when
present; the rule vector receives a push for each of `v0`..`v5` in order,
by six independent presence checks. -/
def item_to_policy (it : Item) : String × List String :=
  let ptype :=
    match it.pType with
    | some att =>
      match asS att with
      | some v => v
      | none => ""
    | none => ""
  let rule :=
    pushIf (pushIf (pushIf (pushIf (pushIf (pushIf [] it.v0) it.v1) it.v2) it.v3) it.v4) it.v5
  (ptype, rule)

/-- Positional attribute string values of a record, in order `v0`..`v5`. -/
def presentFields (it : Item) : List (Option String) :=
  [it.v0.bind asS, it.v1.bind asS, it.v2.bind asS, it.v3.bind asS, it.v4.bind asS, it.v5.bind asS]

/-- Modelled from the spec: the claimed decoded length, "the count of
contiguous populated `vN` fields starting at `v0`" (spec §4.1), i.e. the
length of the longest populated prefix of `v0`..`v5`. Stated from the spec's
words for comparison against `item_to_policy`. -/
def specContiguousLen (it : Item) : Nat :=
  ((presentFields it).takeWhile Option.isSome).length

/-- Modelled from the spec: the id pre-image described in §4.1, "concatenate
`pType` with each field from index 0 up to the last supplied index
(inclusive), each preceded by a comma, regardless of emptiness". -/
def specLine (ptype : String) (rule : List String) : String :=
  rule.foldl (fun line v => line ++ "," ++ v) ptype

/-- A record with a positional gap: `v0` and `v2` populated, `v1` absent. -/
def gapItem : Item :=
  { pType := some (.S "p"), v0 := some (.S "a"), v2 := some (.S "c"), id := some (.S "x") }

theorem pushIf_eq (rule : List String) (o : Option AttributeValue) :
    pushIf rule o = rule ++ [o].filterMap (fun x => x.bind asS) := by
  cases o with
  | none => simp [pushIf]
  | some att => cases att <;> simp [pushIf, asS]

theorem item_to_policy_rule (it : Item) :
    (item_to_policy it).2 =
      ([it.v0, it.v1, it.v2, it.v3, it.v4, it.v5].filterMap (fun o => o.bind asS)) := by
  cases h0 : it.v0.bind asS <;> cases h1 : it.v1.bind asS <;> cases h2 : it.v2.bind asS <;>
    cases h3 : it.v3.bind asS <;> cases h4 : it.v4.bind asS <;> cases h5 : it.v5.bind asS <;>
    simp [item_to_policy, pushIf_eq, List.filterMap_cons, h0, h1, h2, h3, h4, h5]

/-- Claim C2 (counterexample): on a record whose `v0` and `v2` are populated
but whose `v1` is absent, `item_to_policy` returns both fields, compacted to
`["a", "c"]`; the decoded length 2 differs from the claimed contiguous-prefix
count 1, and the later field is included rather than truncated away. -/
theorem c2_decode_truncation_counterexample :
    item_to_policy gapItem = ("p", ["a", "c"]) ∧
    specContiguousLen gapItem = 1 ∧
    (item_to_policy gapItem).2.length ≠ specContiguousLen gapItem := by
  refine ⟨rfl, rfl, by decide⟩

/-- Claim C2 (amended): for every stored record, `item_to_policy` collects
the values of all present string-valued `vN` attributes in index order,
compacting over gaps: the decoded field list is the in-order list of all
populated `v0`..`v5` values (so its length is the total count of populated
positional attributes, not the contiguous-prefix count). -/
theorem c2_decode_collects_all_present :
    ∀ it : Item,
      (item_to_policy it).2 =
        ([it.v0, it.v1, it.v2, it.v3, it.v4, it.v5].filterMap (fun o => o.bind asS)) ∧
      (item_to_policy it).2.length = ((presentFields it).countP Option.isSome) := by
  intro it
  refine ⟨item_to_policy_rule it, ?_⟩
  rw [item_to_policy_rule]
  cases h0 : it.v0.bind asS <;> cases h1 : it.v1.bind asS <;> cases h2 : it.v2.bind asS <;>
    cases h3 : it.v3.bind asS <;> cases h4 : it.v4.bind asS <;> cases h5 : it.v5.bind asS <;>
    simp [List.filterMap_cons, presentFields, h0, h1, h2, h3, h4, h5, List.countP_cons]

theorem isEmpty_false_of_ne (s : String) (h : s ≠ "") : s.isEmpty = false := by
  cases hs : s.isEmpty
  · rfl
  · exact absurd ((String.isEmpty_iff s).mp hs) h

/-- Primary-key string of a record, when present. -/
def getIdStr (it : Item) : Option String := it.id.bind asS

/-- Modelled from the spec (§6): the store's `delete(table, key,
return-previous-value)` primitive, i.e. DynamoDB `delete_item` with
`ReturnValue::AllOld`: removes the record with the given primary key and
returns the previous record when one existed. -/
def delete_item_ret (tbl : List Item) (idv : String) : List Item × Option Item :=
  (tbl.filter (fun it => getIdStr it != some idv),
   tbl.find? (fun it => getIdStr it == some idv))

/-- Embedding of `Adapter::remove_policy` (adapter.rs:368-386): derive the
rule's id, delete with previous-value return, answer `true` exactly when the
store reported a previous record. -/
def remove_policy (md5c : String → List Nat) (tbl : List Item) (ptype : String)
    (rule : List String) : List Item × Bool :=
  let idv := get_item_id md5c ptype rule
  let res := delete_item_ret tbl idv
  (res.1, res.2.isSome)

/-- Claim C5: for every type label and rule of at most 6 fields, the derived
id is the lowercase-hex digest of the label followed by every field from
index 0 to the last supplied index, each preceded by a comma (empty fields
included as empty segments); the derivation is a pure function, and the very
same `get_item_id` value is the `id` attribute written by `policy_to_item`
and the delete key used by `remove_policy`. -/
theorem c5_id_derivation (md5c : String → List Nat) (ptype : String) (rule : List String)
    (h : rule.length ≤ 6) :
    get_item_id md5c ptype rule = hexLower (md5c (specLine ptype rule)) ∧
    (policy_to_item md5c ptype rule).id = some (.S (get_item_id md5c ptype rule)) ∧
    (∀ tbl, remove_policy md5c tbl ptype rule =
      ((delete_item_ret tbl (get_item_id md5c ptype rule)).1,
       (delete_item_ret tbl (get_item_id md5c ptype rule)).2.isSome)) := by
  rcases rule with _ | ⟨a, _ | ⟨b, _ | ⟨c, _ | ⟨d, _ | ⟨e, _ | ⟨x, _ | ⟨y, t⟩⟩⟩⟩⟩⟩⟩
  · exact ⟨rfl, rfl, fun tbl => rfl⟩
  · exact ⟨rfl, rfl, fun tbl => rfl⟩
  · exact ⟨rfl, rfl, fun tbl => rfl⟩
  · exact ⟨rfl, rfl, fun tbl => rfl⟩
  · exact ⟨rfl, rfl, fun tbl => rfl⟩
  · exact ⟨rfl, rfl, fun tbl => rfl⟩
  · exact ⟨rfl, rfl, fun tbl => rfl⟩
  · simp at h

theorem c5_id_derivation_witness :
    get_item_id (fun _ => [0]) "p" ["alice"] =
      hexLower ((fun _ => [0]) (specLine "p" ["alice"])) ∧
    (policy_to_item (fun _ => [0]) "p" ["alice"]).id =
      some (.S (get_item_id (fun _ => [0]) "p" ["alice"])) ∧
    (∀ tbl, remove_policy (fun _ => [0]) tbl "p" ["alice"] =
      ((delete_item_ret tbl (get_item_id (fun _ => [0]) "p" ["alice"])).1,
       (delete_item_ret tbl (get_item_id (fun _ => [0]) "p" ["alice"])).2.isSome)) :=
  c5_id_derivation (fun _ => [0]) "p" ["alice"] (by decide)

/-- Claim C6: encode-then-decode is the identity on well-formed tuples, i.e.
tuples of at most 6 fields none of which is the empty string (an empty field
anywhere would be dropped by the encoder, and a non-trailing one would leave
a compacted gap). -/
theorem c6_round_trip (md5c : String → List Nat) (ptype : String) (rule : List String)
    (hlen : rule.length ≤ 6) (hne : ∀ v ∈ rule, v ≠ "") :
    item_to_policy (policy_to_item md5c ptype rule) = (ptype, rule) := by
  rcases rule with _ | ⟨a, _ | ⟨b, _ | ⟨c, _ | ⟨d, _ | ⟨e, _ | ⟨x, _ | ⟨y, t⟩⟩⟩⟩⟩⟩⟩
  · rfl
  · have ha := isEmpty_false_of_ne a (hne a (by simp))
    simp [policy_to_item, item_to_policy, encSlot, pushIf, asS, ha]
  · have ha := isEmpty_false_of_ne a (hne a (by simp))
    have hb := isEmpty_false_of_ne b (hne b (by simp))
    simp [policy_to_item, item_to_policy, encSlot, pushIf, asS, ha, hb]
  · have ha := isEmpty_false_of_ne a (hne a (by simp))
    have hb := isEmpty_false_of_ne b (hne b (by simp))
    have hc := isEmpty_false_of_ne c (hne c (by simp))
    simp [policy_to_item, item_to_policy, encSlot, pushIf, asS, ha, hb, hc]
  · have ha := isEmpty_false_of_ne a (hne a (by simp))
    have hb := isEmpty_false_of_ne b (hne b (by simp))
    have hc := isEmpty_false_of_ne c (hne c (by simp))
    have hd := isEmpty_false_of_ne d (hne d (by simp))
    simp [policy_to_item, item_to_policy, encSlot, pushIf, asS, ha, hb, hc, hd]
  · have ha := isEmpty_false_of_ne a (hne a (by simp))
    have hb := isEmpty_false_of_ne b (hne b (by simp))
    have hc := isEmpty_false_of_ne c (hne c (by simp))
    have hd := isEmpty_false_of_ne d (hne d (by simp))
    have he := isEmpty_false_of_ne e (hne e (by simp))
    simp [policy_to_item, item_to_policy, encSlot, pushIf, asS, ha, hb, hc, hd, he]
  · have ha := isEmpty_false_of_ne a (hne a (by simp))
    have hb := isEmpty_false_of_ne b (hne b (by simp))
    have hc := isEmpty_false_of_ne c (hne c (by simp))
    have hd := isEmpty_false_of_ne d (hne d (by simp))
    have he := isEmpty_false_of_ne e (hne e (by simp))
    have hx := isEmpty_false_of_ne x (hne x (by simp))
    simp [policy_to_item, item_to_policy, encSlot, pushIf, asS, ha, hb, hc, hd, he, hx]
  · simp at hlen

theorem c6_round_trip_witness :
    item_to_policy (policy_to_item (fun _ => [0]) "p" ["alice", "data1", "read"]) =
      ("p", ["alice", "data1", "read"]) :=
  c6_round_trip (fun _ => [0]) "p" ["alice", "data1", "read"] (by decide) (by decide)

/-- Claim C7: `remove_policy` answers `true` exactly when a record keyed by
the recomputed id previously existed in the table (in which case it is
removed); with no match it answers `false` rather than failing. -/
theorem c7_remove_policy_reports_prior_existence (md5c : String → List Nat)
    (tbl : List Item) (ptype : String) (rule : List String) :
    ((remove_policy md5c tbl ptype rule).2 = true ↔
      ∃ it ∈ tbl, getIdStr it = some (get_item_id md5c ptype rule)) ∧
    (remove_policy md5c tbl ptype rule).1 =
      tbl.filter (fun it => getIdStr it != some (get_item_id md5c ptype rule)) := by
  constructor
  · simp [remove_policy, delete_item_ret, List.find?_isSome]
  · rfl

/-- Page `page` of the bulk-write loop (adapter.rs:211-229 and its copies):
the items at indices `x = page * 25` up to `y`, where
`y = if x + 25 >= len then len else x + 25`; `items.get(i)` succeeds for
every `x <= i < y` since `y <= len`, so the page is the slice
`take (y - x)` of `drop x`. -/
def pageOf (items : List α) (page : Nat) : List α :=
  let x := page * 25
  let y := if items.length ≤ x + 25 then items.length else x + 25
  (items.drop x).take (y - x)

/-- Pages issued by the bulk-write loop: the loop runs for
`pages = len / 25 + 1` iterations (adapter.rs:207). -/
def batchPages (items : List α) : List (List α) :=
  (List.range (items.length / 25 + 1)).map (pageOf items)

theorem pageOf_eq (items : List α) (page : Nat) :
    pageOf items page = (items.drop (page * 25)).take 25 := by
  unfold pageOf
  by_cases h : items.length ≤ page * 25 + 25
  · simp only [if_pos h]
    have h1 : (items.drop (page * 25)).length = items.length - page * 25 :=
      List.length_drop _ _
    rw [← h1, List.take_length, List.take_of_length_le (by omega)]
  · simp only [if_neg h]
    congr 1
    omega

theorem flatten_chunks (m : Nat) : ∀ (l : List α), l.length ≤ 25 * m + 25 →
    ((List.range (m + 1)).map (fun k => (l.drop (k * 25)).take 25)).flatten = l := by
  induction m with
  | zero =>
    intro l h
    show ((List.range 1).map (fun k => (l.drop (k * 25)).take 25)).flatten = l
    rw [show List.range 1 = [0] from rfl]
    simp only [List.map_cons, List.map_nil, List.flatten_cons,
      List.flatten_nil, List.append_nil, Nat.zero_mul, List.drop_zero]
    exact List.take_of_length_le (by omega)
  | succ m ih =>
    intro l h
    rw [List.range_succ_eq_map, List.map_cons, List.flatten_cons, List.map_map]
    have hmap : ((List.range (m + 1)).map ((fun k => (l.drop (k * 25)).take 25) ∘ Nat.succ)) =
        (List.range (m + 1)).map (fun k => ((l.drop 25).drop (k * 25)).take 25) := by
      apply List.map_congr_left
      intro k _
      simp only [Function.comp]
      rw [List.drop_drop]
      congr 2
      omega
    rw [hmap, ih (l.drop 25) (by rw [List.length_drop]; omega)]
    simp only [Nat.zero_mul, List.drop_zero]
    exact List.take_append_drop 25 l

theorem batchPages_length (items : List α) :
    (batchPages items).length = items.length / 25 + 1 := by
  simp [batchPages]

theorem batchPages_page_le (items : List α) :
    ∀ p ∈ batchPages items, p.length ≤ 25 := by
  intro p hp
  rcases List.mem_map.mp hp with ⟨k, _, rfl⟩
  rw [pageOf_eq]
  exact List.length_take_le _ _

theorem batchPages_flatten (items : List α) : (batchPages items).flatten = items := by
  have hmod : items.length % 25 < 25 := Nat.mod_lt _ (by norm_num)
  have hdm := Nat.div_add_mod items.length 25
  have hcongr : batchPages items =
      (List.range (items.length / 25 + 1)).map (fun k => (items.drop (k * 25)).take 25) := by
    unfold batchPages
    exact List.map_congr_left (fun k _ => pageOf_eq items k)
  rw [hcongr]
  exact flatten_chunks _ items (by omega)

/-- Write operation inside a store batch-write call. -/
inductive WriteOp where
  | putReq (item : Item)
  | deleteReq (idv : String)
deriving DecidableEq

/-- Modelled from the spec (§6): effect of one write operation of a
batch-write on the table: a put upserts by primary key, a delete removes by
key. -/
def applyWrite (tbl : List Item) : WriteOp → List Item
  | .putReq item => tbl.filter (fun it => getIdStr it != getIdStr item) ++ [item]
  | .deleteReq idv => tbl.filter (fun it => getIdStr it != some idv)

/-- Effect of one whole batch-write call. -/
def applyPage (tbl : List Item) (ops : List WriteOp) : List Item := ops.foldl applyWrite tbl

/-- Sequential execution of the per-page batch-write loop shared verbatim by
`save_policy`, `clear_policy`, `add_policies`, `remove_policies` and
`remove_filtered_policy` (adapter.rs:208-239 and its four copies): one store
call per page, strictly in order, aborting on the first failing call. The
oracle `fails` says which calls (by index) the store fails. Result: the
table after the committed pages, the index of the failing call when one
failed, and the number of batch calls actually issued. -/
def runBatches (fails : Nat → Bool) : List (List WriteOp) → List Item → List Item × Option Nat × Nat
  | [], tbl => (tbl, none, 0)
  | page :: rest, tbl =>
    if fails 0 then (tbl, some 0, 1)
    else
      match runBatches (fun j => fails (j + 1)) rest (applyPage tbl page) with
      | (t, none, c) => (t, none, c + 1)
      | (t, some k, c) => (t, some (k + 1), c + 1)

/-- Id collection from a scan result (adapter.rs:256-263, 478-485): every
scanned record contributes its `id` attribute when present and a string. -/
def scanIds (tbl : List Item) : List String := tbl.filterMap getIdStr

/-- Embedding of `Adapter::add_policies` (adapter.rs:324-366): empty input
answers `false`; otherwise each rule is encoded and the records are written
through the paged batch loop, answering `true` on success and propagating
the first store error. -/
def add_policies (md5c : String → List Nat) (fails : Nat → Bool) (tbl : List Item)
    (ptype : String) (rules : List (List String)) : List Item × Except Nat Bool × Nat :=
  if rules.isEmpty then (tbl, .ok false, 0)
  else
    let wpages := (batchPages rules).map
      (fun page => page.map (fun rule => WriteOp.putReq (policy_to_item md5c ptype rule)))
    match runBatches fails wpages tbl with
    | (t, none, c) => (t, .ok true, c)
    | (t, some k, c) => (t, .error k, c)

/-- Embedding of `Adapter::remove_policies` (adapter.rs:388-434): empty input
answers `false`; otherwise each rule's id is recomputed and deleted through
the paged batch loop, answering `true` with no per-item existence check. -/
def remove_policies (md5c : String → List Nat) (fails : Nat → Bool) (tbl : List Item)
    (ptype : String) (rules : List (List String)) : List Item × Except Nat Bool × Nat :=
  if rules.isEmpty then (tbl, .ok false, 0)
  else
    let wpages := (batchPages rules).map
      (fun page => page.map (fun rule => WriteOp.deleteReq (get_item_id md5c ptype rule)))
    match runBatches fails wpages tbl with
    | (t, none, c) => (t, .ok true, c)
    | (t, some k, c) => (t, .error k, c)

/-- Embedding of `Adapter::clear_policy` (adapter.rs:244-304): scan every
record's id, succeed immediately when there are none, otherwise delete them
all through the paged batch loop. -/
def clear_policy (fails : Nat → Bool) (tbl : List Item) : List Item × Except Nat Unit × Nat :=
  let ids := scanIds tbl
  if ids.isEmpty then (tbl, .ok (), 0)
  else
    let wpages := (batchPages ids).map (fun page => page.map WriteOp.deleteReq)
    match runBatches fails wpages tbl with
    | (t, none, c) => (t, .ok (), c)
    | (t, some k, c) => (t, .error k, c)

/-- Model of the casbin `Model` as consumed by `save_policy`: for each
section label, an association list of policy types to rule lists, iterated
in list order (a deterministic embedding of the source's map iteration). -/
abbrev CasbinModel := List (String × List (String × List (List String)))

/-- Item list collected by `save_policy` (adapter.rs:191-201): both sections
`p` then `g`, every type within a section, every rule of a type, encoded in
order. -/
def modelItems (md5c : String → List Nat) (m : CasbinModel) : List Item :=
  (["p", "g"].map (fun sec =>
    match List.lookup sec m with
    | some astMap => (astMap.map (fun pa => pa.2.map (policy_to_item md5c pa.1))).flatten
    | none => [])).flatten

/-- Embedding of `Adapter::save_policy` (adapter.rs:190-242): collect the
model's rules, succeed immediately with no items, otherwise bulk-write the
encoded records through the paged batch loop. -/
def save_policy (md5c : String → List Nat) (fails : Nat → Bool) (m : CasbinModel)
    (tbl : List Item) : List Item × Except Nat Unit × Nat :=
  let items := modelItems md5c m
  if items.isEmpty then (tbl, .ok (), 0)
  else
    let wpages := (batchPages items).map (fun page => page.map WriteOp.putReq)
    match runBatches fails wpages tbl with
    | (t, none, c) => (t, .ok (), c)
    | (t, some k, c) => (t, .error k, c)

/-- Claim C1 (counterexample): at N = 25 the bulk-write loop issues
`25 / 25 + 1 = 2` batch pages, not `ceil(25 / 25) = 1`: the loop count
`(items.len() / 25) + 1` (adapter.rs:207) produces a trailing empty page
whenever N is a positive multiple of 25. -/
theorem c1_batch_count_counterexample :
    (batchPages (List.replicate 25 (0 : Nat))).length = 2 ∧
    (25 + 24) / 25 = 1 ∧
    (batchPages (List.replicate 25 (0 : Nat))).length ≠ (25 + 24) / 25 := by
  refine ⟨rfl, rfl, by decide⟩

/-- Claim C1 (amended): on N items the bulk-write path issues exactly
`N / 25 + 1` batch pages (so `ceil(N / 25)` except when N is a positive
multiple of 25, where one extra trailing empty page is issued), each page
holds at most 25 items, and the pages' items concatenate to exactly the
original list; when the input is empty the operations short-circuit before
any store call (zero batch calls issued). -/
theorem c1_batching_amended (items : List α) (md5c : String → List Nat)
    (fails : Nat → Bool) (tbl : List Item) (ptype : String) :
    (batchPages items).length = items.length / 25 + 1 ∧
    (∀ p ∈ batchPages items, p.length ≤ 25) ∧
    (batchPages items).flatten = items ∧
    add_policies md5c fails tbl ptype [] = (tbl, .ok false, 0) ∧
    remove_policies md5c fails tbl ptype [] = (tbl, .ok false, 0) ∧
    clear_policy fails [] = ([], .ok (), 0) :=
  ⟨batchPages_length items, batchPages_page_le items, batchPages_flatten items,
   rfl, rfl, rfl⟩

theorem c1_batching_amended_witness :
    (batchPages [(7 : Nat)]).length = [(7 : Nat)].length / 25 + 1 ∧
    (batchPages [(7 : Nat)]).flatten = [7] ∧
    add_policies (fun _ => [0]) (fun _ => false) [] "p" [] = ([], .ok false, 0) :=
  have h := c1_batching_amended [(7 : Nat)] (fun _ => [0]) (fun _ => false) [] "p"
  ⟨h.1, h.2.2.1, h.2.2.2.1⟩

theorem runBatches_success :
    ∀ (pages : List (List WriteOp)) (fails : Nat → Bool) (tbl : List Item),
      (∀ j, fails j = false) →
      runBatches fails pages tbl = (pages.foldl applyPage tbl, none, pages.length) := by
  intro pages
  induction pages with
  | nil => intro fails tbl h; rfl
  | cons page rest ih =>
    intro fails tbl h
    simp only [runBatches, h 0, Bool.false_eq_true, if_false]
    rw [ih (fun j => fails (j + 1)) (applyPage tbl page) (fun j => h (j + 1))]
    simp

theorem runBatches_first_fail :
    ∀ (pages : List (List WriteOp)) (fails : Nat → Bool) (k : Nat) (tbl : List Item),
      (∀ j, j < k → fails j = false) → fails k = true → k < pages.length →
      runBatches fails pages tbl = ((pages.take k).foldl applyPage tbl, some k, k + 1) := by
  intro pages
  induction pages with
  | nil => intro fails k tbl _ _ h3; simp at h3
  | cons page rest ih =>
    intro fails k tbl h1 h2 h3
    cases k with
    | zero => simp [runBatches, h2]
    | succ k =>
      have h0 : fails 0 = false := h1 0 (Nat.succ_pos k)
      have ihres := ih (fun j => fails (j + 1)) k (applyPage tbl page)
        (fun j hj => h1 (j + 1) (by omega)) h2 (by simpa using h3)
      simp only [runBatches, h0, Bool.false_eq_true, if_false]
      rw [ihres]
      simp [List.take_succ_cons]

/-- Claim C9: when the store fails the batch call at page index `k` (all
earlier calls succeeding), the paged bulk loop shared by the bulk operations
returns that error at once: exactly `k + 1` batch calls are issued, the
writes of the `k` pages before the failure stay committed (the resulting
table is the fold of exactly those pages), and pages after `k` are never
attempted; instantiated on `remove_policies` as a representative bulk
operation. -/
theorem c9_partial_effect (fails : Nat → Bool) (k : Nat)
    (h1 : ∀ j, j < k → fails j = false) (h2 : fails k = true) :
    (∀ (pages : List (List WriteOp)) (tbl : List Item), k < pages.length →
      runBatches fails pages tbl = ((pages.take k).foldl applyPage tbl, some k, k + 1)) ∧
    (∀ (md5c : String → List Nat) (tbl : List Item) (ptype : String)
        (rules : List (List String)), rules ≠ [] → k < (batchPages rules).length →
      remove_policies md5c fails tbl ptype rules =
        ((((batchPages rules).map
            (fun page => page.map
              (fun rule => WriteOp.deleteReq (get_item_id md5c ptype rule)))).take k).foldl
              applyPage tbl,
         .error k, k + 1)) ∧
    (∀ (md5c : String → List Nat) (tbl : List Item) (ptype : String)
        (rules : List (List String)), rules ≠ [] → k < (batchPages rules).length →
      add_policies md5c fails tbl ptype rules =
        ((((batchPages rules).map
            (fun page => page.map
              (fun rule => WriteOp.putReq (policy_to_item md5c ptype rule)))).take k).foldl
              applyPage tbl,
         .error k, k + 1)) := by
  refine ⟨?_, ?_, ?_⟩
  · intro pages tbl h3
    exact runBatches_first_fail pages fails k tbl h1 h2 h3
  · intro md5c tbl ptype rules hne h3
    have hni : rules.isEmpty = false := by
      cases rules with
      | nil => exact absurd rfl hne
      | cons r rs => rfl
    simp only [remove_policies, hni, Bool.false_eq_true, if_false]
    rw [runBatches_first_fail _ fails k tbl h1 h2 (by simpa using h3)]
  · intro md5c tbl ptype rules hne h3
    have hni : rules.isEmpty = false := by
      cases rules with
      | nil => exact absurd rfl hne
      | cons r rs => rfl
    simp only [add_policies, hni, Bool.false_eq_true, if_false]
    rw [runBatches_first_fail _ fails k tbl h1 h2 (by simpa using h3)]

def wPages3 : List (List WriteOp) :=
  [[.deleteReq "a"], [.deleteReq "b"], [.deleteReq "c"]]

theorem c9_partial_effect_witness :
    runBatches (fun j => j == 1) wPages3 [] =
      ((wPages3.take 1).foldl applyPage [], some 1, 2) :=
  (c9_partial_effect (fun j => j == 1) 1 (by decide) (by decide)).1 wPages3 [] (by decide)

/-- Equality constraints put into the scan filter expression by
`remove_filtered_policy` (adapter.rs:454-462): one per supplied non-empty
value, on attribute `v(field_index + pos)`; empty values contribute
nothing. -/
def filterConstraints (field_index : Nat) (field_values : List String) : List (Nat × String) :=
  field_values.enum.filterMap
    (fun pv => if pv.2.isEmpty then none else some (field_index + pv.1, pv.2))

/-- Modelled from the spec (§4.3): store-side semantics of the filter
expression string built at adapter.rs:450-462 — `pType` equality AND, for
each constraint, equality of the named `vN` attribute with the supplied
string value (a record lacking the attribute matches nothing). -/
def matchesFilter (ptype : String) (field_index : Nat) (field_values : List String)
    (it : Item) : Bool :=
  (it.pType == some (AttributeValue.S ptype)) &&
  (filterConstraints field_index field_values).all
    (fun c => vAttr it c.1 == some (AttributeValue.S c.2))

/-- Embedding of `Adapter::remove_filtered_policy` (adapter.rs:436-526):
empty `field_values` answers `false`; otherwise scan with the prefix filter,
collect the matching ids, answer `false` when none matched, else delete them
all through the paged batch loop and answer `true`. -/
def remove_filtered_policy (fails : Nat → Bool) (tbl : List Item) (ptype : String)
    (field_index : Nat) (field_values : List String) : List Item × Except Nat Bool × Nat :=
  if field_values.isEmpty then (tbl, .ok false, 0)
  else
    let ids := scanIds (tbl.filter (matchesFilter ptype field_index field_values))
    if ids.isEmpty then (tbl, .ok false, 0)
    else
      let wpages := (batchPages ids).map (fun page => page.map WriteOp.deleteReq)
      match runBatches fails wpages tbl with
      | (t, none, c) => (t, .ok true, c)
      | (t, some k, c) => (t, .error k, c)

theorem foldl_deleteReq (ids : List String) : ∀ (tbl : List Item),
    (ids.map WriteOp.deleteReq).foldl applyWrite tbl =
      tbl.filter (fun it => !(ids.any (fun i => getIdStr it == some i))) := by
  induction ids with
  | nil =>
    intro tbl
    simp [List.filter_true]
  | cons i ids ih =>
    intro tbl
    simp only [List.map_cons, List.foldl_cons]
    rw [ih]
    show ((tbl.filter (fun it => getIdStr it != some i)).filter
        (fun it => !(ids.any (fun x => getIdStr it == some x)))) = _
    rw [List.filter_filter]
    apply List.filter_congr
    intro it _
    cases hgi : getIdStr it == some i <;> simp [List.any_cons, bne, hgi]

/-- Claim C8: on a table whose records all carry pairwise-distinct primary
ids, with a fault-free store and a non-empty value list,
`remove_filtered_policy` deletes exactly the records matching the prefix
filter (type equality plus per-position equality at the non-empty supplied
values, empty values acting as wildcards), leaves every other record
unchanged, and answers `true` exactly when some record matched; with an
empty value list it answers `false` touching nothing. -/
theorem c8_remove_filtered_scope (fails : Nat → Bool) (tbl : List Item) (ptype : String)
    (field_index : Nat) (field_values : List String)
    (hne : field_values ≠ [])
    (hid : ∀ it ∈ tbl, (getIdStr it).isSome)
    (hinj : ∀ it1 ∈ tbl, ∀ it2 ∈ tbl, getIdStr it1 = getIdStr it2 → it1 = it2)
    (hok : ∀ j, fails j = false) :
    (remove_filtered_policy fails tbl ptype field_index field_values).1 =
      tbl.filter (fun it => !(matchesFilter ptype field_index field_values it)) ∧
    (remove_filtered_policy fails tbl ptype field_index field_values).2.1 =
      .ok (tbl.any (matchesFilter ptype field_index field_values)) ∧
    (∀ (tbl2 : List Item) (pt2 : String) (fi2 : Nat),
      remove_filtered_policy fails tbl2 pt2 fi2 [] = (tbl2, .ok false, 0)) := by
  have hvne : field_values.isEmpty = false := by
    cases field_values with
    | nil => exact absurd rfl hne
    | cons v vs => rfl
  by_cases hids : (scanIds (tbl.filter (matchesFilter ptype field_index field_values))).isEmpty
  · -- no record matched the filter
    have hnil : scanIds (tbl.filter (matchesFilter ptype field_index field_values)) = [] :=
      List.isEmpty_iff.mp hids
    have hnomatch : ∀ it ∈ tbl, matchesFilter ptype field_index field_values it = false := by
      intro it hmem
      by_contra hcon
      have hP : matchesFilter ptype field_index field_values it = true := by
        cases hP : matchesFilter ptype field_index field_values it
        · exact absurd hP hcon
        · rfl
      have hmem2 : it ∈ tbl.filter (matchesFilter ptype field_index field_values) :=
        List.mem_filter.mpr ⟨hmem, hP⟩
      rcases Option.isSome_iff_exists.mp (hid it hmem) with ⟨s, hs⟩
      have : getIdStr it = none := by
        have := (List.filterMap_eq_nil_iff.mp hnil) it hmem2
        exact this
      rw [hs] at this
      exact Option.noConfusion this
    refine ⟨?_, ?_, fun tbl2 pt2 fi2 => rfl⟩
    · simp only [remove_filtered_policy, hvne, Bool.false_eq_true, if_false, hids, if_true]
      exact (List.filter_eq_self.mpr (fun it hmem => by simp [hnomatch it hmem])).symm
    · simp only [remove_filtered_policy, hvne, Bool.false_eq_true, if_false, hids, if_true]
      have hany : tbl.any (matchesFilter ptype field_index field_values) = false := by
        cases hany : tbl.any (matchesFilter ptype field_index field_values)
        · rfl
        · rcases List.any_eq_true.mp hany with ⟨it, hmem, hP⟩
          rw [hnomatch it hmem] at hP
          exact hP.symm
      rw [hany]
  · -- at least one record matched: the ids get batch-deleted
    have hvne2 : (scanIds (tbl.filter (matchesFilter ptype field_index field_values))).isEmpty
        = false := by
      cases hc : (scanIds (tbl.filter (matchesFilter ptype field_index field_values))).isEmpty
      · rfl
      · exact absurd hc hids
    set P := matchesFilter ptype field_index field_values with hPdef
    set ids := scanIds (tbl.filter P) with hidsdef
    have hrun := runBatches_success ((batchPages ids).map (fun page => page.map WriteOp.deleteReq))
      fails tbl hok
    have hfold : ((batchPages ids).map (fun page => page.map WriteOp.deleteReq)).foldl
        applyPage tbl = tbl.filter (fun it => !(ids.any (fun i => getIdStr it == some i))) := by
      have hflat : ((batchPages ids).map (fun page => page.map WriteOp.deleteReq)).flatten =
          ids.map WriteOp.deleteReq := by
        rw [← List.map_flatten, batchPages_flatten]
      calc ((batchPages ids).map (fun page => page.map WriteOp.deleteReq)).foldl applyPage tbl
          = (((batchPages ids).map (fun page => page.map WriteOp.deleteReq)).flatten).foldl
              applyWrite tbl := by
            rw [List.foldl_flatten]
            rfl
        _ = (ids.map WriteOp.deleteReq).foldl applyWrite tbl := by rw [hflat]
        _ = tbl.filter (fun it => !(ids.any (fun i => getIdStr it == some i))) :=
            foldl_deleteReq ids tbl
    have hpt : ∀ it ∈ tbl, (ids.any (fun i => getIdStr it == some i)) = P it := by
      intro it hmem
      cases hP : P it
      · -- not matching: its id is in none of the collected ids
        cases hany : ids.any (fun i => getIdStr it == some i)
        · rfl
        · rcases List.any_eq_true.mp hany with ⟨i, hiin, hieq⟩
          rcases List.mem_filterMap.mp (hidsdef ▸ hiin) with ⟨it2, hit2, hid2⟩
          rcases List.mem_filter.mp hit2 with ⟨hit2mem, hit2P⟩
          have heq : getIdStr it = some i := by
            cases hgi : getIdStr it with
            | none =>
              rw [hgi] at hieq
              exact absurd hieq (by simp)
            | some v =>
              rw [hgi] at hieq
              exact (beq_iff_eq).mp hieq
          have : it = it2 := hinj it hmem it2 hit2mem (by rw [heq, hid2])
          rw [this, hit2P] at hP
          exact hP
      · -- matching: its id was collected
        rcases Option.isSome_iff_exists.mp (hid it hmem) with ⟨s, hs⟩
        have hin : s ∈ ids := by
          rw [hidsdef]
          exact List.mem_filterMap.mpr ⟨it, List.mem_filter.mpr ⟨hmem, hP⟩, hs⟩
        exact List.any_eq_true.mpr ⟨s, hin, by rw [hs]; exact beq_self_eq_true _⟩
    have hmatched : tbl.any P = true := by
      have hidne : ids ≠ [] := by
        intro hc
        rw [hc] at hvne2
        exact Bool.noConfusion hvne2
      rcases List.exists_mem_of_ne_nil ids hidne with ⟨i, hiin⟩
      rcases List.mem_filterMap.mp (hidsdef ▸ hiin) with ⟨it2, hit2, _⟩
      rcases List.mem_filter.mp hit2 with ⟨hmem2, hP2⟩
      exact List.any_eq_true.mpr ⟨it2, hmem2, hP2⟩
    refine ⟨?_, ?_, fun tbl2 pt2 fi2 => rfl⟩
    · simp only [remove_filtered_policy, hvne, Bool.false_eq_true, if_false, hvne2]
      rw [hrun]
      simp only [hfold]
      exact List.filter_congr (fun it hmem => by rw [hpt it hmem])
    · simp only [remove_filtered_policy, hvne, Bool.false_eq_true, if_false, hvne2]
      rw [hrun, hmatched]

/-- Sample records for the `remove_filtered_policy` witness: `g1` matches the
filter `("g", 0, ["alice", "data2_admin"])`, `g2` does not. -/
def g1 : Item :=
  { pType := some (.S "g"), v0 := some (.S "alice"), v1 := some (.S "data2_admin"),
    v2 := some (.S "extra"), id := some (.S "id1") }

def g2 : Item :=
  { pType := some (.S "g"), v0 := some (.S "bob"), v1 := some (.S "data1_admin"),
    id := some (.S "id2") }

theorem c8_remove_filtered_scope_witness :
    (remove_filtered_policy (fun _ => false) [g1, g2] "g" 0 ["alice", "data2_admin"]).1 =
      [g1, g2].filter (fun it => !(matchesFilter "g" 0 ["alice", "data2_admin"] it)) ∧
    (remove_filtered_policy (fun _ => false) [g1, g2] "g" 0 ["alice", "data2_admin"]).2.1 =
      .ok ([g1, g2].any (matchesFilter "g" 0 ["alice", "data2_admin"])) ∧
    (∀ (tbl2 : List Item) (pt2 : String) (fi2 : Nat),
      remove_filtered_policy (fun _ => false) tbl2 pt2 fi2 [] = (tbl2, .ok false, 0)) :=
  c8_remove_filtered_scope (fun _ => false) [g1, g2] "g" 0 ["alice", "data2_admin"]
    (by decide) (by decide) (by decide) (fun _ => rfl)

theorem c7_remove_policy_reports_prior_existence_witness :
    ((remove_policy (fun _ => [0]) [g1] "g" ["bob"]).2 = true ↔
      ∃ it ∈ [g1], getIdStr it = some (get_item_id (fun _ => [0]) "g" ["bob"])) ∧
    (remove_policy (fun _ => [0]) [g1] "g" ["bob"]).1 =
      [g1].filter (fun it => getIdStr it != some (get_item_id (fun _ => [0]) "g" ["bob"])) :=
  c7_remove_policy_reports_prior_existence (fun _ => [0]) [g1] "g" ["bob"]

/-- Model of `casbin::Filter`: one pattern list per section. -/
structure CFilter where
  p : List String
  g : List String
deriving DecidableEq

/-- Outcome of a load operation: normal completion carrying the `filtered`
flag, the fatal decode error, or a Rust panic (out-of-bounds index). -/
inductive LoadOutcome where
  | ok (filtered : Bool)
  | err (msg : String)
  | panicked
deriving DecidableEq

/-- Embedding of the pattern loop of `load_filtered_policy_into_model`
(adapter.rs:150-155): walk the applicable pattern list with its enumeration
index; a non-empty pattern indexes `policy[i]` — `none` models the panic
when `i` is out of bounds — and a mismatch marks the tuple skipped. The loop
never exits early, so later out-of-bounds patterns still panic after a
mismatch. -/
def checkSkipAux : Nat → List String → List String → Bool → Option Bool
  | _, [], _, skip => some skip
  | i, r :: rest, policy, skip =>
    if r.isEmpty then checkSkipAux (i + 1) rest policy skip
    else
      match policy.get? i with
      | none => none
      | some v =>
        if r != v then checkSkipAux (i + 1) rest policy true
        else checkSkipAux (i + 1) rest policy skip

def checkSkip (pats policy : List String) : Option Bool :=
  checkSkipAux 0 pats policy false

/-- Embedding of `DynamoDBAdapter::load_filtered_policy_into_model`
(adapter.rs:120-166), after the scan: process the records in order,
threading the model sink (the list of `(sec, ptype, policy)` tuples added so
far, in order) and the `filtered` flag; a record decoding to an empty type
or empty field list aborts with the fatal error, an out-of-bounds pattern
index aborts with a panic, and both leave the sink as already filled. -/
def load_filtered_policy_into_model :
    List Item → CFilter → List (String × String × List String) → Bool →
      List (String × String × List String) × LoadOutcome
  | [], _, sink, filtered => (sink, .ok filtered)
  | it :: rest, f, sink, filtered =>
    if (item_to_policy it).1.isEmpty || (item_to_policy it).2.isEmpty then
      (sink, .err "invalid load policy")
    else
      match (item_to_policy it).1.data with
      | [] => load_filtered_policy_into_model rest f sink filtered
      | sec :: _ =>
        match checkSkip (if sec == 'p' then f.p else f.g) (item_to_policy it).2 with
        | none => (sink, .panicked)
        | some true => load_filtered_policy_into_model rest f sink true
        | some false =>
          load_filtered_policy_into_model rest f
            (sink ++ [(sec.toString, (item_to_policy it).1, (item_to_policy it).2)]) filtered

/-- Adapter instance state: the single mutable flag (adapter.rs:18). -/
structure AdapterState where
  is_filtered : Bool
deriving DecidableEq

/-- Embedding of `Adapter::load_policy` (adapter.rs:171-182): delegate to
the filtered load with an empty filter, discarding the returned flag; the
receiver is `&self`, so the adapter state is untouched. -/
def load_policy (st : AdapterState) (tbl : List Item) :
    AdapterState × List (String × String × List String) × LoadOutcome :=
  let r := load_filtered_policy_into_model tbl ⟨[], []⟩ [] false
  (st, r.1, r.2)

/-- Embedding of `Adapter::load_filtered_policy` (adapter.rs:184-188):
on normal completion the returned flag is assigned to `is_filtered`; on
error (or panic) the `?` propagation skips the assignment. -/
def load_filtered_policy (st : AdapterState) (tbl : List Item) (f : CFilter) :
    AdapterState × List (String × String × List String) × LoadOutcome :=
  let r := load_filtered_policy_into_model tbl f [] false
  match r.2 with
  | .ok b => (⟨b⟩, r.1, r.2)
  | _ => (st, r.1, r.2)

/-- A record decoding to `("p", ["alice"])`. -/
def itemPA : Item :=
  { pType := some (.S "p"), v0 := some (.S "alice"), id := some (.S "idp") }

/-- A record decoding to `("", [])`: corrupt input for the load path. -/
def emptyItem : Item := {}

/-- Claim C3 (counterexample): the flag is not sticky for the adapter's
lifetime. Load filtered with pattern `["bob"]` over a table holding
`("p", ["alice"])`: the tuple is skipped and `is_filtered` becomes true;
a second `load_filtered_policy` with pattern `["alice"]` skips nothing and
resets the flag to false, with no intervening unfiltered `load_policy`
(which, taking `&self`, could not reset it anyway). -/
theorem c3_sticky_flag_counterexample :
    ((load_filtered_policy ⟨false⟩ [itemPA] ⟨["bob"], []⟩).1).is_filtered = true ∧
    ((load_filtered_policy (load_filtered_policy ⟨false⟩ [itemPA] ⟨["bob"], []⟩).1
        [itemPA] ⟨["alice"], []⟩).1).is_filtered = false := by
  refine ⟨rfl, rfl⟩

/-- Claim C3 (amended): after a `load_filtered_policy` call that skips at
least one tuple, `is_filtered` returns true; the flag is never written by
`load_policy` (whose receiver is `&self`), is left unchanged when a load
fails, and is overwritten only by the next normally-completing
`load_filtered_policy` call, which sets it to whether that call skipped
anything. -/
theorem c3_filtered_flag_behavior :
    (∀ (st : AdapterState) (tbl : List Item) (f : CFilter),
      (load_filtered_policy st tbl f).2.2 = .ok true →
      ((load_filtered_policy st tbl f).1).is_filtered = true) ∧
    (∀ (st : AdapterState) (tbl : List Item), (load_policy st tbl).1 = st) ∧
    (∀ (st : AdapterState) (tbl : List Item) (f : CFilter) (b : Bool),
      (load_filtered_policy st tbl f).2.2 = .ok b →
      ((load_filtered_policy st tbl f).1).is_filtered = b) ∧
    (∀ (st : AdapterState) (tbl : List Item) (f : CFilter),
      (∀ b, (load_filtered_policy st tbl f).2.2 ≠ .ok b) →
      (load_filtered_policy st tbl f).1 = st) := by
  have key : ∀ (st : AdapterState) (tbl : List Item) (f : CFilter) (b : Bool),
      (load_filtered_policy st tbl f).2.2 = .ok b →
      ((load_filtered_policy st tbl f).1).is_filtered = b := by
    intro st tbl f b h
    unfold load_filtered_policy at h ⊢
    cases hr : (load_filtered_policy_into_model tbl f [] false).2 with
    | ok b2 =>
      simp only [hr] at h ⊢
      cases h
      rfl
    | err m => simp [hr] at h
    | panicked => simp [hr] at h
  refine ⟨fun st tbl f h => key st tbl f true h, fun st tbl => rfl, key, ?_⟩
  intro st tbl f h
  unfold load_filtered_policy
  cases hr : (load_filtered_policy_into_model tbl f [] false).2 with
  | ok b2 =>
    exfalso
    apply h b2
    unfold load_filtered_policy
    simp [hr]
  | err m => simp [hr]
  | panicked => simp [hr]

theorem c3_filtered_flag_behavior_witness :
    ((load_filtered_policy ⟨false⟩ [itemPA] ⟨["bob"], []⟩).1).is_filtered = true :=
  c3_filtered_flag_behavior.1 ⟨false⟩ [itemPA] ⟨["bob"], []⟩ rfl

/-- Pattern list applicable to a record during filtered load: the `p`
patterns when the decoded type's first character is `'p'`, the `g` patterns
otherwise (no pattern applies to an empty type, which errors out earlier). -/
def patsOf (f : CFilter) (it : Item) : List String :=
  match (item_to_policy it).1.data with
  | [] => []
  | c :: _ => if c == 'p' then f.p else f.g

theorem checkSkipAux_isSome (policy : List String) :
    ∀ (pats : List String) (i : Nat) (skip : Bool),
      (∀ j r, pats.get? j = some r → r.isEmpty = false → i + j < policy.length) →
      (checkSkipAux i pats policy skip).isSome = true := by
  intro pats
  induction pats with
  | nil => intro i skip _; rfl
  | cons r rest ih =>
    intro i skip h
    by_cases hre : r.isEmpty = true
    · simp only [checkSkipAux, hre, if_true]
      apply ih (i + 1) skip
      intro j rr hj hne
      have := h (j + 1) rr (by simpa using hj) hne
      omega
    · have href : r.isEmpty = false := by
        cases hc : r.isEmpty
        · rfl
        · exact absurd hc hre
      have hb : i < policy.length := by
        have := h 0 r rfl href
        omega
      cases hp : policy.get? i with
      | none =>
        exfalso
        have := List.get?_eq_none.mp hp
        omega
      | some v =>
        simp only [checkSkipAux, href, Bool.false_eq_true, if_false, hp]
        by_cases hrv : (r != v) = true
        · simp only [hrv, if_true]
          apply ih (i + 1) true
          intro j rr hj hne
          have := h (j + 1) rr (by simpa using hj) hne
          omega
        · simp only [hrv]
          simp only [Bool.not_eq_true] at hrv
          simp only [hrv, Bool.false_eq_true, if_false]
          apply ih (i + 1) skip
          intro j rr hj hne
          have := h (j + 1) rr (by simpa using hj) hne
          omega

theorem load_no_panic (f : CFilter) :
    ∀ (tbl : List Item) (sink : List (String × String × List String)) (filtered : Bool),
      (∀ it ∈ tbl, ∀ j r, (patsOf f it).get? j = some r → r.isEmpty = false →
        j < (item_to_policy it).2.length) →
      (load_filtered_policy_into_model tbl f sink filtered).2 ≠ .panicked := by
  intro tbl
  induction tbl with
  | nil =>
    intro sink filtered _
    simp [load_filtered_policy_into_model]
  | cons it rest ih =>
    intro sink filtered h
    have hrest : ∀ it2 ∈ rest, ∀ j r, (patsOf f it2).get? j = some r → r.isEmpty = false →
        j < (item_to_policy it2).2.length :=
      fun it2 hm => h it2 (List.mem_cons_of_mem it hm)
    have hhead := h it (List.mem_cons_self it rest)
    by_cases hbad : ((item_to_policy it).1.isEmpty || (item_to_policy it).2.isEmpty) = true
    · simp [load_filtered_policy_into_model, hbad]
    · simp only [load_filtered_policy_into_model, hbad, Bool.false_eq_true, if_false]
      cases hd : (item_to_policy it).1.data with
      | nil => exact ih sink filtered hrest
      | cons c cs =>
        simp only []
        have hpats : patsOf f it = (if c == 'p' then f.p else f.g) := by
          unfold patsOf
          rw [hd]
        have hsome : (checkSkip (if c == 'p' then f.p else f.g) (item_to_policy it).2).isSome
            = true := by
          apply checkSkipAux_isSome
          intro j r hj hne
          have := hhead j r (by rwa [hpats]) hne
          omega
        cases hcs : checkSkip (if c == 'p' then f.p else f.g) (item_to_policy it).2 with
        | none => rw [hcs] at hsome; simp at hsome
        | some b =>
          cases b with
          | true => exact ih sink true hrest
          | false => exact ih _ filtered hrest

/-- Claim C4: the positional comparison of `load_filtered_policy` can index
the decoded field vector out of bounds and panic — concretely, a table
holding a record decoding to `("p", ["alice"])` loaded with `p`-patterns
`["", "x"]` panics, because the non-empty pattern at position 1 indexes a
1-element tuple — and under the precondition that every non-empty pattern
position is within the decoded tuple's length for every scanned record, the
out-of-bounds branch is unreachable and the load never panics. -/
theorem c4_filter_index_out_of_bounds :
    (load_filtered_policy ⟨false⟩ [itemPA] ⟨["", "x"], []⟩).2.2 = .panicked ∧
    (∀ (policy pats : List String),
      (∀ j r, pats.get? j = some r → r.isEmpty = false → j < policy.length) →
      (checkSkip pats policy).isSome = true) ∧
    (∀ (st : AdapterState) (tbl : List Item) (f : CFilter),
      (∀ it ∈ tbl, ∀ j r, (patsOf f it).get? j = some r → r.isEmpty = false →
        j < (item_to_policy it).2.length) →
      (load_filtered_policy st tbl f).2.2 ≠ .panicked) := by
  refine ⟨rfl, ?_, ?_⟩
  · intro policy pats h
    exact checkSkipAux_isSome policy pats 0 false (fun j r hj hne => by
      have := h j r hj hne
      omega)
  · intro st tbl f h
    have hout : (load_filtered_policy st tbl f).2.2 =
        (load_filtered_policy_into_model tbl f [] false).2 := by
      unfold load_filtered_policy
      cases hr : (load_filtered_policy_into_model tbl f [] false).2 <;> simp [hr]
    rw [hout]
    exact load_no_panic f tbl [] false h

theorem c4_filter_index_out_of_bounds_witness :
    (load_filtered_policy ⟨false⟩ [itemPA] ⟨["alice"], []⟩).2.2 ≠ .panicked :=
  c4_filter_index_out_of_bounds.2.2 ⟨false⟩ [itemPA] ⟨["alice"], []⟩ (by
    intro it hit j r hj hne
    rcases List.mem_singleton.mp hit with rfl
    cases j with
    | zero =>
      show 0 < 1
      exact Nat.one_pos
    | succ n => exact Option.noConfusion hj)

theorem load_into_model_append :
    ∀ (xs ys : List Item) (f : CFilter) (sink : List (String × String × List String))
      (filtered : Bool) (s : List (String × String × List String)) (b : Bool),
      load_filtered_policy_into_model xs f sink filtered = (s, .ok b) →
      load_filtered_policy_into_model (xs ++ ys) f sink filtered =
        load_filtered_policy_into_model ys f s b := by
  intro xs
  induction xs with
  | nil =>
    intro ys f sink filtered s b h
    have h1 : sink = s := congrArg Prod.fst h
    have h2 : LoadOutcome.ok filtered = .ok b := congrArg Prod.snd h
    cases h1
    cases h2
    rfl
  | cons it rest ih =>
    intro ys f sink filtered s b h
    by_cases hbad : ((item_to_policy it).1.isEmpty || (item_to_policy it).2.isEmpty) = true
    · rw [load_filtered_policy_into_model, if_pos hbad] at h
      exact absurd (congrArg Prod.snd h) (by simp)
    · rw [load_filtered_policy_into_model, if_neg hbad] at h
      show load_filtered_policy_into_model (it :: (rest ++ ys)) f sink filtered = _
      rw [load_filtered_policy_into_model, if_neg hbad]
      cases hd : (item_to_policy it).1.data with
      | nil =>
        rw [hd] at h
        exact ih ys f sink filtered s b h
      | cons c cs =>
        rw [hd] at h
        simp only [] at h ⊢
        cases hcs : checkSkip (if c == 'p' then f.p else f.g) (item_to_policy it).2 with
        | none =>
          rw [hcs] at h
          exact absurd (congrArg Prod.snd h) (by simp)
        | some b2 =>
          rw [hcs] at h
          cases b2 with
          | true => exact ih ys f sink true s b h
          | false => exact ih ys f _ filtered s b h

/-- Claim C10: when the scan yields some cleanly-processed prefix, then a
record decoding to an empty type or empty field list, the load aborts at
that record with the fatal "invalid load policy" error; the tuples of the
prefix already handed to the model sink remain there, and
`load_filtered_policy` surfaces the same error with the same partial sink. -/
theorem c10_invalid_record_aborts_load (f : CFilter) (pre rest : List Item) (bad : Item)
    (s : List (String × String × List String)) (b : Bool)
    (hpre : load_filtered_policy_into_model pre f [] false = (s, .ok b))
    (hbad : (item_to_policy bad).1.isEmpty = true ∨ (item_to_policy bad).2.isEmpty = true) :
    load_filtered_policy_into_model (pre ++ bad :: rest) f [] false =
      (s, .err "invalid load policy") ∧
    (∀ st : AdapterState, (load_filtered_policy st (pre ++ bad :: rest) f).2 =
      (s, .err "invalid load policy")) := by
  have hb : ((item_to_policy bad).1.isEmpty || (item_to_policy bad).2.isEmpty) = true := by
    rcases hbad with h | h <;> simp [h]
  have hmain : load_filtered_policy_into_model (pre ++ bad :: rest) f [] false =
      (s, .err "invalid load policy") := by
    rw [load_into_model_append pre (bad :: rest) f [] false s b hpre]
    rw [load_filtered_policy_into_model, if_pos hb]
  refine ⟨hmain, fun st => ?_⟩
  unfold load_filtered_policy
  rw [hmain]

theorem c10_invalid_record_aborts_load_witness :
    load_filtered_policy_into_model ([itemPA] ++ emptyItem :: [itemPA]) ⟨[], []⟩ [] false =
      ([("p", "p", ["alice"])], .err "invalid load policy") :=
  (c10_invalid_record_aborts_load ⟨[], []⟩ [itemPA] [itemPA] emptyItem
    [("p", "p", ["alice"])] false rfl (Or.inl rfl)).1

end DynamoDBAdapter
